import Mathlib

/-!
Shallow embedding of the Game_of_Trades market server (`src/main.py`).

Money and prices are modelled as exact rationals (`ℚ`); Python `round(x, 2)`
is modelled as round-half-even to a multiple of `1/100`.  Portfolio holdings
(a JSON object mapping symbol to integer quantity) are modelled as an
association list in insertion order, matching Python `dict` semantics.
The SQLite tables `stocks` and `portfolios` are modelled as lists of records;
`UPDATE ... WHERE` is a map over the rows.
-/

namespace GameOfTrades

/-- Python `round` on a rational scaled to an integer: round to nearest,
ties to even (banker's rounding). -/
def roundHalfEven (q : ℚ) : ℤ :=
  let n := ⌊q⌋
  let f := q - n
  if f < 1/2 then n
  else if 1/2 < f then n + 1
  else if Even n then n else n + 1

/-- Python `round(x, 2)`: round to the nearest multiple of `1/100`. -/
def round2 (q : ℚ) : ℚ := (roundHalfEven (q * 100) : ℚ) / 100

/-- A row of the `stocks` table (main.py lines 26-34). -/
structure Stock where
  symbol : String
  name : String
  price : ℚ
  last_price : ℚ
  updated_at : ℤ
  deriving DecidableEq

/-- A row of the `portfolios` table (main.py lines 35-42); `holdings` is the
decoded JSON object, an insertion-ordered association list. -/
structure Portfolio where
  team : String
  cash : ℚ
  holdings : List (String × ℤ)
  last_updated : ℤ
  deriving DecidableEq

/-- The module-level state: both tables plus the round globals
`ROUND_ACTIVE` and `ROUND_START` (main.py lines 17-19). -/
structure MarketState where
  stocks : List Stock
  portfolios : List Portfolio
  round_active : Bool
  round_start : Option ℚ
  deriving DecidableEq

/-- `ROUND_DURATION = 30 * 60` (main.py line 17). -/
def ROUND_DURATION : ℚ := 30 * 60

/-- Initial cash handed to a new team (main.py line 182). -/
def INITIAL_CASH : ℚ := 100000

/-- `INITIAL_STOCKS` seed table (main.py lines 76-85). -/
def INITIAL_STOCKS : List (String × String × ℚ) :=
  [("APPL", "Apple (sim)", 1750),
   ("TSLA", "Tesla (sim)", 2650),
   ("GOGL", "Google (sim)", 2820),
   ("AMZN", "Amazon (sim)", 3300),
   ("INFY", "Infosys (sim)", 1500),
   ("TCS", "TCS (sim)", 3200),
   ("RELI", "Reliance (sim)", 2400),
   ("HDFC", "HDFC Bank (sim)", 1200)]

/-- One seeded stock row: price and last_price both set to the seed price
(main.py lines 147-153). -/
def seedStock (nowInt : ℤ) (t : String × String × ℚ) : Stock :=
  ⟨t.1, t.2.1, t.2.2, t.2.2, nowInt⟩

/-- State right after `startup` (main.py lines 144-161): stocks seeded,
no portfolios, round auto-started. -/
def initialState (now : ℚ) (nowInt : ℤ) : MarketState :=
  { stocks := INITIAL_STOCKS.map (seedStock nowInt)
    portfolios := []
    round_active := true
    round_start := some now }

/-- Python `holdings.get(s, 0)`. -/
def hget : List (String × ℤ) → String → ℤ
  | [], _ => 0
  | (k, w) :: t, s => if s = k then w else hget t s

/-- Python `holdings[s] = v`: replace in place if the key exists,
append otherwise (dict insertion order). -/
def hset : List (String × ℤ) → String → ℤ → List (String × ℤ)
  | [], s, v => [(s, v)]
  | (k, w) :: t, s, v => if k = s then (s, v) :: t else (k, w) :: hset t s v

/-- Python `del holdings[s]`. -/
def hdel : List (String × ℤ) → String → List (String × ℤ)
  | [], _ => []
  | (k, w) :: t, s => if k = s then t else (k, w) :: hdel t s

/-- `SELECT price FROM stocks WHERE symbol=?` (main.py line 193). -/
def priceOf (stocks : List Stock) (sym : String) : Option ℚ :=
  (stocks.find? (fun s => s.symbol == sym)).map Stock.price

/-- A trade request body (main.py lines 67-70). -/
structure TradeReq where
  team : String
  symbol : String
  qty : ℤ
  deriving DecidableEq

/-- The typed errors raised by `trade` (main.py lines 188-215). -/
inductive TradeError where
  | round_closed
  | zero_quantity
  | unknown_symbol
  | unknown_team
  | insufficient_cash
  | insufficient_holdings
  deriving DecidableEq

/-- HTTP status of each `HTTPException` raised by `trade`. -/
def TradeError.status : TradeError → ℕ
  | .round_closed => 403
  | .zero_quantity => 400
  | .unknown_symbol => 404
  | .unknown_team => 404
  | .insufficient_cash => 400
  | .insufficient_holdings => 400

/-- The success payload of `trade` (main.py line 223). -/
structure TradeResult where
  cash : ℚ
  holdings : List (String × ℤ)
  deriving DecidableEq

/-- The round gate of `trade` (main.py line 188):
`not ROUND_ACTIVE or (ROUND_START and time.time() - ROUND_START > ROUND_DURATION)`. -/
def tradingRejected (st : MarketState) (now : ℚ) : Bool :=
  !st.round_active ||
    (match st.round_start with
     | some t0 => decide (now - t0 > ROUND_DURATION)
     | none => false)

/-- `UPDATE portfolios SET cash=?, holdings=?, last_updated=? WHERE team=?`
(main.py lines 221-222). -/
def updatePortfolios (ps : List Portfolio) (team : String) (cash : ℚ)
    (holdings : List (String × ℤ)) (nowInt : ℤ) : List Portfolio :=
  ps.map (fun q =>
    if q.team == team then
      { q with cash := cash, holdings := holdings, last_updated := nowInt }
    else q)

/-- The `/trade` handler (main.py lines 185-223).  Returns the state after the
call together with either the success payload or the raised error. -/
def trade (st : MarketState) (now : ℚ) (nowInt : ℤ) (req : TradeReq) :
    MarketState × Except TradeError TradeResult :=
  if tradingRejected st now then (st, .error .round_closed)
  else if req.qty = 0 then (st, .error .zero_quantity)
  else
    match priceOf st.stocks req.symbol with
    | none => (st, .error .unknown_symbol)
    | some price =>
      -- Python: total = price * abs(req.qty)
      match st.portfolios.find? (fun p => p.team == req.team) with
      | none => (st, .error .unknown_team)
      | some p =>
        if 0 < req.qty then
          if p.cash < price * ((|req.qty| : ℤ) : ℚ) then (st, .error .insufficient_cash)
          else
            ({ st with
                portfolios :=
                  updatePortfolios st.portfolios req.team
                    (p.cash - price * ((|req.qty| : ℤ) : ℚ))
                    (hset p.holdings req.symbol (hget p.holdings req.symbol + req.qty))
                    nowInt },
             .ok ⟨p.cash - price * ((|req.qty| : ℤ) : ℚ),
                  hset p.holdings req.symbol (hget p.holdings req.symbol + req.qty)⟩)
        else
          if hget p.holdings req.symbol < |req.qty| then
            (st, .error .insufficient_holdings)
          else
            ({ st with
                portfolios :=
                  updatePortfolios st.portfolios req.team
                    (p.cash + price * ((|req.qty| : ℤ) : ℚ))
                    (if hget p.holdings req.symbol - |req.qty| = 0 then
                      hdel (hset p.holdings req.symbol
                        (hget p.holdings req.symbol - |req.qty|)) req.symbol
                    else
                      hset p.holdings req.symbol
                        (hget p.holdings req.symbol - |req.qty|))
                    nowInt },
             .ok ⟨p.cash + price * ((|req.qty| : ℤ) : ℚ),
                  if hget p.holdings req.symbol - |req.qty| = 0 then
                    hdel (hset p.holdings req.symbol
                      (hget p.holdings req.symbol - |req.qty|)) req.symbol
                  else
                    hset p.holdings req.symbol
                      (hget p.holdings req.symbol - |req.qty|)⟩)

/-- The `/init_team` handler (main.py lines 176-183): the error side carries
the HTTP status of the raised `HTTPException`, the ok side the returned cash. -/
def init_team (st : MarketState) (team : String) (nowInt : ℤ) :
    MarketState × Except ℕ ℚ :=
  if st.portfolios.any (fun p => p.team == team) then (st, .error 400)
  else
    ({ st with portfolios := st.portfolios ++ [⟨team, INITIAL_CASH, [], nowInt⟩] },
     .ok INITIAL_CASH)

/-- One price move, shared by both background loops (main.py lines 97 and 116):
`round(max(1, price * (1 + pct)), 2)`. -/
def priceStep (price pct : ℚ) : ℚ := round2 (max 1 (price * (1 + pct)))

/-- One stock-row update inside a tick (main.py lines 98-101 / 117-120). -/
def tickStock (δ : String → ℚ) (nowInt : ℤ) (s : Stock) : Stock :=
  { s with last_price := s.price, price := priceStep s.price (δ s.symbol),
           updated_at := nowInt }

/-- One iteration of `live_price_update_loop` (main.py lines 105-120),
with the uniform draws given as `δ` per symbol. -/
def liveTick (st : MarketState) (now : ℚ) (nowInt : ℤ) (δ : String → ℚ) :
    MarketState :=
  if !st.round_active then st
  else
    match st.round_start with
    | some t0 =>
      if now - t0 > ROUND_DURATION then { st with round_active := false }
      else { st with stocks := st.stocks.map (tickStock δ nowInt) }
    | none => { st with stocks := st.stocks.map (tickStock δ nowInt) }

/-- One iteration of `price_update_loop` (main.py lines 89-101), with the
sampled subset given as `sel` and the uniform draws as `δ`.  Note the loop
never consults the round state. -/
def slowTick (st : MarketState) (sel : String → Bool) (δ : String → ℚ)
    (nowInt : ℤ) : MarketState :=
  if st.stocks.isEmpty then st
  else
    { st with stocks :=
        st.stocks.map (fun s => if sel s.symbol then tickStock δ nowInt s else s) }

/-- The `/start_round` (and identical `/force_start`) handler
(main.py lines 123-135). -/
def start_round (st : MarketState) (now : ℚ) : MarketState :=
  { st with round_active := true, round_start := some now }

/-- The `/end_round` handler (main.py lines 137-141). -/
def end_round (st : MarketState) : MarketState :=
  { st with round_active := false }

/-- One entry of the `/leaderboard` response (main.py line 246). -/
structure BoardEntry where
  team : String
  value : ℚ
  deriving DecidableEq

/-- Python `prices.get(s, 0)` over the stocks table (main.py line 245). -/
def priceOrZero (stocks : List Stock) (sym : String) : ℚ :=
  match priceOf stocks sym with
  | some p => p
  | none => 0

/-- The value computed per team (main.py lines 244-246):
`round(cash + sum(prices.get(s, 0) * q), 2)`. -/
def boardEntry (stocks : List Stock) (p : Portfolio) : BoardEntry :=
  ⟨p.team,
   round2 (p.cash + (p.holdings.map (fun kv => priceOrZero stocks kv.1 * (kv.2 : ℚ))).sum)⟩

/-- The `/leaderboard` handler (main.py lines 238-248).  Python's
`list.sort(key=..., reverse=True)` is a stable sort placing larger values
first; it is modelled by a stable insertion sort under the relation
"my value is at least yours". -/
def leaderboard (st : MarketState) : List BoardEntry :=
  List.insertionSort (fun a b => b.value ≤ a.value)
    (st.portfolios.map (boardEntry st.stocks))

/-- The operations that can touch the embedded state. -/
inductive Op where
  | initTeam (team : String) (nowInt : ℤ)
  | doTrade (now : ℚ) (nowInt : ℤ) (req : TradeReq)
  | liveUpdate (now : ℚ) (nowInt : ℤ) (δ : String → ℚ)
  | slowUpdate (sel : String → Bool) (δ : String → ℚ) (nowInt : ℤ)
  | startRound (now : ℚ)
  | endRound

/-- State transition of one operation. -/
def applyOp (st : MarketState) : Op → MarketState
  | .initTeam team n => (init_team st team n).1
  | .doTrade now n req => (trade st now n req).1
  | .liveUpdate now n δ => liveTick st now n δ
  | .slowUpdate sel δ n => slowTick st sel δ n
  | .startRound now => start_round st now
  | .endRound => end_round st

/-! ### State invariants -/

/-- The portfolio invariant stated by the spec: non-negative cash and only
positive holdings quantities. -/
def CashHoldingsOK (p : Portfolio) : Prop :=
  0 ≤ p.cash ∧ ∀ kv ∈ p.holdings, 1 ≤ kv.2

/-- Full portfolio well-formedness: the spec invariant plus uniqueness of the
holdings keys (automatic for a decoded JSON object). -/
def PortfolioOK (p : Portfolio) : Prop :=
  CashHoldingsOK p ∧ (p.holdings.map Prod.fst).Nodup

/-- Stock price well-formedness: at least 1 and an exact 2-decimal value. -/
def PriceOK (s : Stock) : Prop :=
  1 ≤ s.price ∧ ∃ k : ℤ, s.price = (k : ℚ) / 100

/-- Inductive invariant of the whole state. -/
def StateInv (st : MarketState) : Prop :=
  (∀ p ∈ st.portfolios, PortfolioOK p) ∧ ∀ s ∈ st.stocks, PriceOK s

/-- The price move exactly as the specification words it:
`new_price := max(PRICE_FLOOR, price * (1 + delta))` with `PRICE_FLOOR = 0.01`.
Stated only to compare against the code's `priceStep`. -/
def specMove (price pct : ℚ) : ℚ := max (1/100) (price * (1 + pct))

/-- What claim C1 asserts of a successful trade: the exact cash and holdings
deltas for the requesting team, and preservation of every other portfolio. -/
def TradeEffect (st st' : MarketState) (res : TradeResult) (p : Portfolio)
    (price : ℚ) (req : TradeReq) (nowInt : ℤ) : Prop :=
  (0 < req.qty →
    res.cash = p.cash - price * (req.qty : ℚ) ∧
    hget res.holdings req.symbol = hget p.holdings req.symbol + req.qty) ∧
  (req.qty < 0 →
    res.cash = p.cash + price * ((-req.qty : ℤ) : ℚ) ∧
    hget res.holdings req.symbol = hget p.holdings req.symbol + req.qty ∧
    (hget p.holdings req.symbol + req.qty = 0 →
      req.symbol ∉ res.holdings.map Prod.fst)) ∧
  st'.portfolios.find? (fun q => q.team == req.team) =
    some { p with cash := res.cash, holdings := res.holdings, last_updated := nowInt } ∧
  (∀ q ∈ st.portfolios, q.team ≠ req.team → q ∈ st'.portfolios) ∧
  st'.stocks = st.stocks

/-- A small running state: one stock, one registered team, round open. -/
def exBase : MarketState :=
  { stocks := [⟨"INFY", "Infosys (sim)", 1500, 1500, 0⟩]
    portfolios := [⟨"Alpha", 100000, [], 0⟩]
    round_active := true
    round_start := some 0 }

/-- `exBase` after Alpha buys 10 INFY at 1500. -/
def exBaseAfter : MarketState :=
  { stocks := [⟨"INFY", "Infosys (sim)", 1500, 1500, 0⟩]
    portfolios := [⟨"Alpha", 85000, [("INFY", 10)], 0⟩]
    round_active := true
    round_start := some 0 }

/-- `exBase` with the round flag cleared. -/
def exClosed : MarketState :=
  { stocks := [⟨"INFY", "Infosys (sim)", 1500, 1500, 0⟩]
    portfolios := [⟨"Alpha", 100000, [], 0⟩]
    round_active := false
    round_start := some 0 }

/-- Two teams with equal value, stored in the order B before A. -/
def exTie : MarketState :=
  { stocks := []
    portfolios := [⟨"B", 100000, [], 0⟩, ⟨"A", 100000, [], 0⟩]
    round_active := true
    round_start := some 0 }

/-- The parameter tuple of the one `UPDATE portfolios SET cash=?, holdings=?,
last_updated=? WHERE team=?` statement the trade handler can issue
(main.py lines 221-222). -/
structure PortfolioWrite where
  team : String
  cash : ℚ
  holdings : List (String × ℤ)
  last_updated : ℤ
  deriving DecidableEq

/-- Executing one such UPDATE against the store. -/
def applyWrite (st : MarketState) (w : PortfolioWrite) : MarketState :=
  { st with portfolios :=
      updatePortfolios st.portfolios w.team w.cash w.holdings w.last_updated }

/-- The sequence of portfolio-table writes `trade` executes, in order:
every `raise HTTPException` path returns before the `run_query` UPDATE at
main.py lines 221-222, which is the only write in the handler, so each error
path issues no write and the success path issues exactly one. -/
def tradeWrites (st : MarketState) (now : ℚ) (nowInt : ℤ) (req : TradeReq) :
    List PortfolioWrite :=
  if tradingRejected st now then []
  else if req.qty = 0 then []
  else
    match priceOf st.stocks req.symbol with
    | none => []
    | some price =>
      match st.portfolios.find? (fun p => p.team == req.team) with
      | none => []
      | some p =>
        if 0 < req.qty then
          if p.cash < price * ((|req.qty| : ℤ) : ℚ) then []
          else
            [⟨req.team, p.cash - price * ((|req.qty| : ℤ) : ℚ),
              hset p.holdings req.symbol (hget p.holdings req.symbol + req.qty),
              nowInt⟩]
        else
          if hget p.holdings req.symbol < |req.qty| then []
          else
            [⟨req.team, p.cash + price * ((|req.qty| : ℤ) : ℚ),
              (if hget p.holdings req.symbol - |req.qty| = 0 then
                hdel (hset p.holdings req.symbol
                  (hget p.holdings req.symbol - |req.qty|)) req.symbol
              else
                hset p.holdings req.symbol
                  (hget p.holdings req.symbol - |req.qty|)),
              nowInt⟩]

/-- What claim C7 (amended) asserts of the leaderboard: one entry per
portfolio, the exact (unrounded) mark-to-market value, descending order by
value, and — for every value — the entries carrying that value appear exactly
as in the stored portfolio order (the sort is stable). -/
def LeaderboardSpec (st : MarketState) : Prop :=
  (leaderboard st).Perm (st.portfolios.map (boardEntry st.stocks)) ∧
  (∀ p ∈ st.portfolios, (boardEntry st.stocks p).value =
    p.cash + (p.holdings.map (fun kv => priceOrZero st.stocks kv.1 * (kv.2 : ℚ))).sum) ∧
  List.Sorted (fun a b => b.value ≤ a.value) (leaderboard st) ∧
  ∀ v : ℚ, (leaderboard st).filter (fun e => decide (e.value = v)) =
    (st.portfolios.map (boardEntry st.stocks)).filter (fun e => decide (e.value = v))

/-- Three teams with equal mark-to-market value 100000, stored in the order
B, A, C, with non-trivial holdings. -/
def exBoard : MarketState :=
  { stocks := [⟨"INFY", "Infosys (sim)", 1500, 1500, 0⟩]
    portfolios := [⟨"B", 40000, [("INFY", 40)], 0⟩,
                   ⟨"A", 100000, [], 0⟩,
                   ⟨"C", 70000, [("INFY", 20)], 0⟩]
    round_active := true
    round_start := some 0 }

/-! ### Arithmetic facts about the rounding used by the price loops -/

lemma le_roundHalfEven {m : ℤ} {q : ℚ} (h : (m : ℚ) ≤ q) : m ≤ roundHalfEven q := by
  have hm : m ≤ ⌊q⌋ := Int.le_floor.mpr h
  unfold roundHalfEven
  dsimp only
  split_ifs <;> omega

lemma le_round2 {m : ℤ} {q : ℚ} (h : (m : ℚ) ≤ q) : (m : ℚ) ≤ round2 q := by
  have h100 : ((100 * m : ℤ) : ℚ) ≤ q * 100 := by push_cast; linarith
  have h2 := le_roundHalfEven h100
  unfold round2
  rw [le_div_iff₀ (by norm_num : (0:ℚ) < 100)]
  calc (m : ℚ) * 100 = ((100 * m : ℤ) : ℚ) := by push_cast; ring
    _ ≤ (roundHalfEven (q * 100) : ℚ) := by exact_mod_cast h2

lemma one_le_priceStep (price pct : ℚ) : 1 ≤ priceStep price pct := by
  have : ((1 : ℤ) : ℚ) ≤ round2 (max 1 (price * (1 + pct))) :=
    le_round2 (by simp [le_max_left 1 (price * (1 + pct))])
  simpa [priceStep] using this

lemma priceStep_div100 (price pct : ℚ) :
    ∃ k : ℤ, priceStep price pct = (k : ℚ) / 100 :=
  ⟨roundHalfEven (max 1 (price * (1 + pct)) * 100), rfl⟩

lemma roundHalfEven_intCast (k : ℤ) : roundHalfEven (k : ℚ) = k := by
  unfold roundHalfEven
  dsimp only
  rw [Int.floor_intCast, sub_self]
  norm_num

lemma round2_eq_self (k : ℤ) : round2 ((k : ℚ)/100) = (k : ℚ)/100 := by
  unfold round2
  rw [div_mul_cancel₀ _ (by norm_num : (100:ℚ) ≠ 0), roundHalfEven_intCast]

lemma sum_div100 {l : List ℚ} (h : ∀ x ∈ l, ∃ k : ℤ, x = (k : ℚ)/100) :
    ∃ k : ℤ, l.sum = (k : ℚ)/100 := by
  induction l with
  | nil => exact ⟨0, by norm_num⟩
  | cons a t ih =>
    obtain ⟨ka, hka⟩ := h a (by simp)
    obtain ⟨kt, hkt⟩ := ih fun x hx => h x (List.mem_cons_of_mem _ hx)
    refine ⟨ka + kt, ?_⟩
    rw [List.sum_cons, hka, hkt]
    push_cast
    ring

/-! ### Association-list (JSON dict) lemmas -/

lemma hget_nonneg {h : List (String × ℤ)} (hh : ∀ kv ∈ h, 1 ≤ kv.2) (s : String) :
    0 ≤ hget h s := by
  induction h with
  | nil => simp [hget]
  | cons kv t ih =>
    obtain ⟨k, w⟩ := kv
    rw [hget]
    split_ifs
    · exact le_trans zero_le_one (hh (k, w) (by simp))
    · exact ih fun kv hkv => hh kv (List.mem_cons_of_mem _ hkv)

lemma mem_hset {h : List (String × ℤ)} {s : String} {v : ℤ} :
    ∀ kv ∈ hset h s v, kv.2 = v ∨ kv ∈ h := by
  induction h with
  | nil => simp [hset]
  | cons kv' t ih =>
    obtain ⟨k, w⟩ := kv'
    intro kv hkv
    rw [hset] at hkv
    split_ifs at hkv with hk
    · rcases List.mem_cons.mp hkv with rfl | hm
      · exact Or.inl rfl
      · exact Or.inr (List.mem_cons_of_mem _ hm)
    · rcases List.mem_cons.mp hkv with rfl | hm
      · exact Or.inr (by simp)
      · rcases ih kv hm with hv | hv
        · exact Or.inl hv
        · exact Or.inr (List.mem_cons_of_mem _ hv)

lemma hget_hset (h : List (String × ℤ)) (s : String) (v : ℤ) :
    hget (hset h s v) s = v := by
  induction h with
  | nil => simp [hset, hget]
  | cons kv t ih =>
    obtain ⟨k, w⟩ := kv
    rw [hset]
    split_ifs with hk
    · simp [hget]
    · rw [hget, if_neg (fun hs => hk hs.symm)]
      exact ih

lemma hdel_hset (h : List (String × ℤ)) (s : String) (v : ℤ) :
    hdel (hset h s v) s = hdel h s := by
  induction h with
  | nil => simp [hset, hdel]
  | cons kv t ih =>
    obtain ⟨k, w⟩ := kv
    rw [hset]
    split_ifs with hk
    · subst hk
      rw [hdel, if_pos rfl, hdel, if_pos rfl]
    · rw [hdel, if_neg hk, hdel, if_neg hk, ih]

lemma mem_hdel {h : List (String × ℤ)} {s : String} :
    ∀ kv ∈ hdel h s, kv ∈ h := by
  induction h with
  | nil => simp [hdel]
  | cons kv' t ih =>
    obtain ⟨k, w⟩ := kv'
    intro kv hkv
    rw [hdel] at hkv
    split_ifs at hkv
    · exact List.mem_cons_of_mem _ hkv
    · rcases List.mem_cons.mp hkv with rfl | hm
      · simp
      · exact List.mem_cons_of_mem _ (ih kv hm)

lemma keys_hdel_sublist (h : List (String × ℤ)) (s : String) :
    ((hdel h s).map Prod.fst).Sublist (h.map Prod.fst) := by
  induction h with
  | nil => simp [hdel]
  | cons kv t ih =>
    obtain ⟨k, w⟩ := kv
    rw [hdel]
    split_ifs
    · simp [List.sublist_cons_self k (List.map Prod.fst t)]
    · simpa using ih.cons₂ k

lemma mem_keys_hset {h : List (String × ℤ)} {s : String} {v : ℤ} {x : String} :
    x ∈ (hset h s v).map Prod.fst → x = s ∨ x ∈ h.map Prod.fst := by
  induction h with
  | nil => simp [hset]
  | cons kv' t ih =>
    obtain ⟨k, w⟩ := kv'
    rw [hset]
    split_ifs with hk
    · subst hk
      simp only [List.map_cons, List.mem_cons]
      tauto
    · simp only [List.map_cons, List.mem_cons]
      intro hx
      rcases hx with rfl | hm
      · tauto
      · rcases ih hm with hv | hv <;> tauto

lemma nodup_keys_hset {h : List (String × ℤ)} {s : String} {v : ℤ}
    (hn : (h.map Prod.fst).Nodup) : ((hset h s v).map Prod.fst).Nodup := by
  induction h with
  | nil => simp [hset]
  | cons kv t ih =>
    obtain ⟨k, w⟩ := kv
    simp only [List.map_cons, List.nodup_cons] at hn
    rw [hset]
    split_ifs with hk
    · subst hk
      simpa using hn
    · refine List.nodup_cons.mpr ⟨?_, ih hn.2⟩
      simp only [List.map_cons]
      intro hmem
      rcases mem_keys_hset hmem with rfl | hm
      · exact hk rfl
      · exact hn.1 hm

lemma not_mem_keys_hdel {h : List (String × ℤ)} {s : String}
    (hn : (h.map Prod.fst).Nodup) : s ∉ (hdel h s).map Prod.fst := by
  induction h with
  | nil => simp [hdel]
  | cons kv t ih =>
    obtain ⟨k, w⟩ := kv
    simp only [List.map_cons, List.nodup_cons] at hn
    rw [hdel]
    split_ifs with hk
    · subst hk
      exact hn.1
    · simp only [List.map_cons, List.mem_cons]
      rintro (rfl | hm)
      · exact hk rfl
      · exact ih hn.2 hm

lemma hget_eq_zero_of_not_mem {h : List (String × ℤ)} {s : String}
    (hx : s ∉ h.map Prod.fst) : hget h s = 0 := by
  induction h with
  | nil => rfl
  | cons kv t ih =>
    obtain ⟨k, w⟩ := kv
    simp only [List.map_cons, List.mem_cons] at hx
    push_neg at hx
    rw [hget, if_neg hx.1]
    exact ih hx.2

/-! ### Table-lookup lemmas -/

lemma priceOf_mem {stocks : List Stock} {sym : String} {price : ℚ}
    (h : priceOf stocks sym = some price) : ∃ s ∈ stocks, s.price = price := by
  unfold priceOf at h
  rcases hf : stocks.find? (fun s => s.symbol == sym) with _ | s0
  · rw [hf] at h; simp at h
  · rw [hf] at h
    simp only [Option.map_some', Option.some.injEq] at h
    exact ⟨s0, List.mem_of_find?_eq_some hf, h⟩

lemma updatePortfolios_other {ps : List Portfolio} {team : String} {c : ℚ}
    {hs : List (String × ℤ)} {n : ℤ} :
    ∀ q ∈ ps, q.team ≠ team → q ∈ updatePortfolios ps team c hs n := by
  intro q hq hne
  unfold updatePortfolios
  have : (if q.team == team then
      { q with cash := c, holdings := hs, last_updated := n } else q) = q := by
    rw [if_neg (by simpa using hne)]
  exact this ▸ List.mem_map_of_mem _ hq

lemma find?_updatePortfolios {ps : List Portfolio} {team : String} {p : Portfolio}
    (c : ℚ) (hs : List (String × ℤ)) (n : ℤ)
    (h : ps.find? (fun q => q.team == team) = some p) :
    (updatePortfolios ps team c hs n).find? (fun q => q.team == team) =
      some { p with cash := c, holdings := hs, last_updated := n } := by
  induction ps with
  | nil => simp at h
  | cons q t ih =>
    unfold updatePortfolios
    rcases hq : (q.team == team) with _ | _
    · rw [List.find?_cons_of_neg _ (by simp [hq])] at h
      simp only [List.map_cons, hq, Bool.false_eq_true, if_false]
      rw [List.find?_cons_of_neg _ (by simp [hq])]
      exact ih h
    · rw [List.find?_cons_of_pos _ (by simp [hq])] at h
      simp only [List.map_cons, hq, if_true]
      rw [List.find?_cons_of_pos _ (by simp [hq])]
      simp only [Option.some.injEq] at h ⊢
      rw [← h]

/-! ### Characterization of successful and failed trades -/

theorem trade_state_cases (st : MarketState) (now : ℚ) (nowInt : ℤ) (req : TradeReq) :
    (trade st now nowInt req).1 = st ∨
      ∃ res, (trade st now nowInt req).2 = Except.ok res := by
  unfold trade
  split
  · left; rfl
  split
  · left; rfl
  split
  · left; rfl
  split
  · left; rfl
  split
  · split
    · left; rfl
    · right; exact ⟨_, rfl⟩
  · split
    · left; rfl
    · right; exact ⟨_, rfl⟩

theorem trade_error_state (st : MarketState) (now : ℚ) (nowInt : ℤ) (req : TradeReq)
    (e : TradeError) (h : (trade st now nowInt req).2 = Except.error e) :
    (trade st now nowInt req).1 = st := by
  rcases trade_state_cases st now nowInt req with h1 | ⟨res, h2⟩
  · exact h1
  · rw [h] at h2
    simp at h2

theorem trade_ok {st : MarketState} {now : ℚ} {nowInt : ℤ} {req : TradeReq}
    {st' : MarketState} {res : TradeResult}
    (h : trade st now nowInt req = (st', Except.ok res)) :
    tradingRejected st now = false ∧ req.qty ≠ 0 ∧
    ∃ price p,
      priceOf st.stocks req.symbol = some price ∧
      st.portfolios.find? (fun q => q.team == req.team) = some p ∧
      st'.stocks = st.stocks ∧
      st'.round_active = st.round_active ∧
      st'.round_start = st.round_start ∧
      st'.portfolios = updatePortfolios st.portfolios req.team res.cash res.holdings nowInt ∧
      ((0 < req.qty ∧
          ¬ p.cash < price * ((|req.qty| : ℤ) : ℚ) ∧
          res.cash = p.cash - price * ((|req.qty| : ℤ) : ℚ) ∧
          res.holdings = hset p.holdings req.symbol (hget p.holdings req.symbol + req.qty)) ∨
        (req.qty < 0 ∧
          ¬ hget p.holdings req.symbol < |req.qty| ∧
          res.cash = p.cash + price * ((|req.qty| : ℤ) : ℚ) ∧
          res.holdings =
            (if hget p.holdings req.symbol - |req.qty| = 0 then
              hdel (hset p.holdings req.symbol (hget p.holdings req.symbol - |req.qty|)) req.symbol
            else
              hset p.holdings req.symbol (hget p.holdings req.symbol - |req.qty|)))) := by
  unfold trade at h
  split at h
  · simp at h
  next hrej =>
  split at h
  · simp at h
  next hqty =>
  split at h
  · simp at h
  next price hprice =>
  split at h
  · simp at h
  next p hfind =>
  refine ⟨by simpa using hrej, hqty, price, p, hprice, hfind, ?_⟩
  split at h
  next hpos =>
    split at h
    · simp at h
    next hcash =>
      rw [Prod.mk.injEq] at h
      obtain ⟨hst, hres⟩ := h
      rw [Except.ok.injEq] at hres
      subst hst
      subst hres
      exact ⟨rfl, rfl, rfl, rfl, Or.inl ⟨hpos, hcash, rfl, rfl⟩⟩
  next hpos =>
    split at h
    · simp at h
    next hhold =>
      rw [Prod.mk.injEq] at h
      obtain ⟨hst, hres⟩ := h
      rw [Except.ok.injEq] at hres
      subst hst
      subst hres
      refine ⟨rfl, rfl, rfl, rfl, Or.inr ⟨by omega, hhold, rfl, rfl⟩⟩

lemma priceOK_tickStock (δ : String → ℚ) (n : ℤ) (s : Stock) :
    PriceOK (tickStock δ n s) :=
  ⟨one_le_priceStep _ _, priceStep_div100 _ _⟩

lemma stateInv_liveTick {st : MarketState} (h : StateInv st) (now : ℚ) (n : ℤ)
    (δ : String → ℚ) : StateInv (liveTick st now n δ) := by
  unfold liveTick
  split
  · exact h
  split
  · split
    · exact ⟨h.1, h.2⟩
    · exact ⟨h.1, by intro s hs
                     rcases List.mem_map.mp hs with ⟨s0, _, rfl⟩
                     exact priceOK_tickStock δ n s0⟩
  · exact ⟨h.1, by intro s hs
                   rcases List.mem_map.mp hs with ⟨s0, _, rfl⟩
                   exact priceOK_tickStock δ n s0⟩

lemma stateInv_slowTick {st : MarketState} (h : StateInv st) (sel : String → Bool)
    (δ : String → ℚ) (n : ℤ) : StateInv (slowTick st sel δ n) := by
  unfold slowTick
  split
  · exact h
  · refine ⟨h.1, ?_⟩
    intro s hs
    rcases List.mem_map.mp hs with ⟨s0, hs0, rfl⟩
    split_ifs
    · exact priceOK_tickStock δ n s0
    · exact h.2 s0 hs0

lemma stateInv_init_team {st : MarketState} (h : StateInv st) (team : String)
    (n : ℤ) : StateInv (init_team st team n).1 := by
  unfold init_team
  split
  · exact h
  · refine ⟨?_, h.2⟩
    intro p hp
    rcases List.mem_append.mp hp with hp | hp
    · exact h.1 p hp
    · rcases List.mem_singleton.mp hp with rfl
      exact ⟨⟨by norm_num [INITIAL_CASH], by simp⟩, by simp⟩

lemma stateInv_trade {st : MarketState} (h : StateInv st) (now : ℚ) (nowInt : ℤ)
    (req : TradeReq) : StateInv (trade st now nowInt req).1 := by
  rcases htr : trade st now nowInt req with ⟨st', r⟩
  rcases r with e | res
  · have h1 : (trade st now nowInt req).1 = st :=
      trade_error_state _ _ _ _ e (by rw [htr])
    rw [htr] at h1
    dsimp only at h1 ⊢
    rw [h1]
    exact h
  · dsimp only
    obtain ⟨hrej, hqty, price, p, hprice, hfind, hstocks, hact, hstart, hport, hcases⟩ :=
      trade_ok htr
    have hpmem : p ∈ st.portfolios := List.mem_of_find?_eq_some hfind
    have hpOK : PortfolioOK p := h.1 p hpmem
    have hprice1 : 1 ≤ price := by
      rcases priceOf_mem hprice with ⟨s0, hs0, rfl⟩
      exact (h.2 s0 hs0).1
    have hcash : 0 ≤ res.cash := by
      rcases hcases with ⟨hpos, hc, hcash, _⟩ | ⟨hneg, hc, hcash, _⟩
      · rw [hcash]; linarith [not_lt.mp hc]
      · rw [hcash]
        have : (0 : ℚ) ≤ price * ((|req.qty| : ℤ) : ℚ) := by
          have : (0 : ℚ) ≤ ((|req.qty| : ℤ) : ℚ) := by positivity
          nlinarith
        linarith [hpOK.1.1]
    have hhold : (∀ kv ∈ res.holdings, 1 ≤ kv.2) ∧
        (res.holdings.map Prod.fst).Nodup := by
      rcases hcases with ⟨hpos, _, _, hh⟩ | ⟨hneg, hc, _, hh⟩
      · rw [hh]
        constructor
        · intro kv hkv
          rcases mem_hset kv hkv with hv | hv
          · have := hget_nonneg hpOK.1.2 req.symbol
            omega
          · exact hpOK.1.2 kv hv
        · exact nodup_keys_hset hpOK.2
      · have hge := not_lt.mp hc
        rw [hh]
        split_ifs with hz
        · rw [hdel_hset]
          constructor
          · intro kv hkv
            exact hpOK.1.2 kv (mem_hdel kv hkv)
          · exact hpOK.2.sublist (keys_hdel_sublist p.holdings req.symbol)
        · constructor
          · intro kv hkv
            rcases mem_hset kv hkv with hv | hv
            · omega
            · exact hpOK.1.2 kv hv
          · exact nodup_keys_hset hpOK.2
    refine ⟨?_, by rw [hstocks]; exact h.2⟩
    rw [hport]
    intro q' hq'
    rcases List.mem_map.mp hq' with ⟨q, hq, rfl⟩
    split_ifs with hteam
    · exact ⟨⟨hcash, hhold.1⟩, hhold.2⟩
    · exact h.1 q hq

lemma stateInv_applyOp {st : MarketState} (h : StateInv st) (op : Op) :
    StateInv (applyOp st op) := by
  cases op with
  | initTeam team n => exact stateInv_init_team h team n
  | doTrade now n req => exact stateInv_trade h now n req
  | liveUpdate now n δ => exact stateInv_liveTick h now n δ
  | slowUpdate sel δ n => exact stateInv_slowTick h sel δ n
  | startRound now => exact ⟨h.1, h.2⟩
  | endRound => exact ⟨h.1, h.2⟩

lemma stateInv_foldl {st : MarketState} (h : StateInv st) (ops : List Op) :
    StateInv (ops.foldl applyOp st) := by
  induction ops generalizing st with
  | nil => exact h
  | cons op t ih => exact ih (stateInv_applyOp h op)

lemma stateInv_initialState (now : ℚ) (n : ℤ) : StateInv (initialState now n) := by
  constructor
  · simp [initialState]
  · intro s hs
    simp only [initialState, INITIAL_STOCKS, seedStock, List.map_cons, List.map_nil,
      List.mem_cons, List.not_mem_nil, or_false] at hs
    rcases hs with rfl | rfl | rfl | rfl | rfl | rfl | rfl | rfl
    · exact ⟨by norm_num, ⟨175000, by norm_num⟩⟩
    · exact ⟨by norm_num, ⟨265000, by norm_num⟩⟩
    · exact ⟨by norm_num, ⟨282000, by norm_num⟩⟩
    · exact ⟨by norm_num, ⟨330000, by norm_num⟩⟩
    · exact ⟨by norm_num, ⟨150000, by norm_num⟩⟩
    · exact ⟨by norm_num, ⟨320000, by norm_num⟩⟩
    · exact ⟨by norm_num, ⟨240000, by norm_num⟩⟩
    · exact ⟨by norm_num, ⟨120000, by norm_num⟩⟩

/-! ### The write trace of the trade handler -/

/-- On every input, the state `trade` returns is exactly the input state with
the handler's write trace applied: the handler touches the store only through
the UPDATE statements recorded by `tradeWrites`. -/
theorem trade_fst_eq_writes (st : MarketState) (now : ℚ) (nowInt : ℤ)
    (req : TradeReq) :
    (trade st now nowInt req).1 = (tradeWrites st now nowInt req).foldl applyWrite st := by
  unfold trade tradeWrites
  split
  · rfl
  split
  · rfl
  split
  · rfl
  split
  · rfl
  split
  · split
    · rfl
    · rfl
  · split
    · rfl
    · rfl

/-- Either a trade writes nothing, or its response is a success. -/
theorem tradeWrites_nil_or_ok (st : MarketState) (now : ℚ) (nowInt : ℤ)
    (req : TradeReq) :
    tradeWrites st now nowInt req = [] ∨
      ∃ res, (trade st now nowInt req).2 = Except.ok res := by
  unfold trade tradeWrites
  split
  · left; rfl
  split
  · left; rfl
  split
  · left; rfl
  split
  · left; rfl
  split
  · split
    · left; rfl
    · right; exact ⟨_, rfl⟩
  · split
    · left; rfl
    · right; exact ⟨_, rfl⟩

/-- A trade whose response is an error executed no write at all. -/
theorem tradeWrites_nil_of_error (st : MarketState) (now : ℚ) (nowInt : ℤ)
    (req : TradeReq) (hE : ∃ e, (trade st now nowInt req).2 = Except.error e) :
    tradeWrites st now nowInt req = [] := by
  obtain ⟨e, he⟩ := hE
  rcases tradeWrites_nil_or_ok st now nowInt req with hw | ⟨res, hres⟩
  · exact hw
  · rw [he] at hres
    simp at hres

/-! ### Claim C2: failed trades leave the state untouched -/

/-- C2: a trade request that fails any precondition issues no portfolio
UPDATE, so the state after the call — in particular the requesting team's
portfolio row, its cash and its holdings — is exactly the state before the
call; no partial mutation is ever visible. -/
theorem C2_failed_trade_unchanged (st : MarketState) (now : ℚ) (nowInt : ℤ)
    (req : TradeReq) (e : TradeError)
    (h : (trade st now nowInt req).2 = Except.error e) :
    tradeWrites st now nowInt req = [] ∧
    (trade st now nowInt req).1 = st ∧
    (trade st now nowInt req).1.portfolios.find? (fun q => q.team == req.team) =
      st.portfolios.find? (fun q => q.team == req.team) := by
  have hw : tradeWrites st now nowInt req = [] :=
    tradeWrites_nil_of_error st now nowInt req ⟨e, h⟩
  have h1 : (trade st now nowInt req).1 = st := by
    rw [trade_fst_eq_writes, hw]
    rfl
  exact ⟨hw, h1, by rw [h1]⟩

/-- Witness for C2 at a concrete failing trade (unknown team). -/
theorem C2_witness :
    tradeWrites exBase 0 0 ⟨"Bob", "INFY", 1⟩ = [] ∧
    (trade exBase 0 0 ⟨"Bob", "INFY", 1⟩).1 = exBase ∧
    (trade exBase 0 0 ⟨"Bob", "INFY", 1⟩).1.portfolios.find? (fun q => q.team == "Bob") =
      exBase.portfolios.find? (fun q => q.team == "Bob") := by
  refine C2_failed_trade_unchanged exBase 0 0 ⟨"Bob", "INFY", 1⟩ TradeError.unknown_team ?_
  have hrej : tradingRejected exBase 0 = false := by
    simp only [tradingRejected, exBase]
    norm_num [ROUND_DURATION]
  have hprice : priceOf exBase.stocks "INFY" = some 1500 := by
    simp [priceOf, exBase]
  have hfind : exBase.portfolios.find? (fun p => p.team == "Bob") = none := by
    simp [exBase]
  unfold trade
  simp [hrej, hprice, hfind]

/-! ### Claim C3: the portfolio invariant holds in every reachable state -/

/-- C3: along any sequence of operations from the freshly started server state,
every portfolio has non-negative cash and only holdings entries with
quantity at least 1 (zero-quantity keys never exist). -/
theorem C3_portfolio_invariant (t : ℚ) (n : ℤ) (ops : List Op) :
    ∀ p ∈ (ops.foldl applyOp (initialState t n)).portfolios, CashHoldingsOK p :=
  fun p hp => ((stateInv_foldl (stateInv_initialState t n) ops).1 p hp).1

/-- Witness for C3: the portfolio created by a concrete registration. -/
theorem C3_witness : CashHoldingsOK ⟨"Alpha", 100000, [], 7⟩ :=
  C3_portfolio_invariant 0 0 [Op.initTeam "Alpha" 7] _
    (by simp [applyOp, init_team, initialState, INITIAL_CASH])

/-! ### Claim C5: the price move formula -/

/-- C5 counterexample: for price 100 and the in-range draw `δ = 1/100000`, the
code's move (floor at 1 and rounding to 2 decimals) differs from the spec
formula `max(0.01, price·(1+δ))`. -/
theorem C5_counterexample :
    |(1 : ℚ)/100000| ≤ 1/200 ∧
    priceStep 100 (1/100000) ≠ specMove 100 (1/100000) := by
  constructor
  · rw [abs_of_pos (by norm_num : (0:ℚ) < 1/100000)]
    norm_num
  · norm_num [priceStep, specMove, round2, roundHalfEven]

/-- C5 amended: each live-tick write sets the price to
`round(max(1, price·(1+δ)), 2)` — floor 1, not 0.01, and rounded to two
decimals — hence every written price is ≥ 1, and in particular ≥ 0.01. -/
theorem C5_amended (δ : String → ℚ) (n : ℤ) (s : Stock) :
    (tickStock δ n s).price = round2 (max 1 (s.price * (1 + δ s.symbol))) ∧
    1 ≤ (tickStock δ n s).price ∧ (1 : ℚ)/100 ≤ (tickStock δ n s).price :=
  ⟨rfl, one_le_priceStep _ _, le_trans (by norm_num) (one_le_priceStep _ _)⟩

/-! ### Claim C10: written prices are ≥ 1 and exact 2-decimal values -/

/-- C10: in every state reachable from startup by registrations, trades and
ticks of either background updater, every stored price is at least 1 (so in
particular at least the seed floor) and is an exact multiple of 1/100. -/
theorem C10_price_invariant (t : ℚ) (n : ℤ) (ops : List Op) :
    ∀ s ∈ (ops.foldl applyOp (initialState t n)).stocks, PriceOK s :=
  fun s hs => (stateInv_foldl (stateInv_initialState t n) ops).2 s hs

/-- Witness for C10 at the seeded APPL stock. -/
theorem C10_witness : PriceOK ⟨"APPL", "Apple (sim)", 1750, 1750, 3⟩ :=
  C10_price_invariant 0 3 []
    ⟨"APPL", "Apple (sim)", 1750, 1750, 3⟩
    (by simp [initialState, INITIAL_STOCKS, seedStock])

/-! ### Claim C1: exact effect of a successful trade -/

/-- C1: a successful trade executed at observed price `price` changes the
requesting team's cash by exactly `∓ price·|qty|` and its holdings entry for
the traded symbol by `±|qty|` (the key is inserted if absent on a buy, and
removed when a sell clears the position); every other portfolio is unchanged. -/
theorem C1_trade_effect (st : MarketState) (now : ℚ) (nowInt : ℤ) (req : TradeReq)
    (st' : MarketState) (res : TradeResult) (p : Portfolio) (price : ℚ)
    (hp : st.portfolios.find? (fun q => q.team == req.team) = some p)
    (hnd : (p.holdings.map Prod.fst).Nodup)
    (hprice : priceOf st.stocks req.symbol = some price)
    (h : trade st now nowInt req = (st', Except.ok res)) :
    TradeEffect st st' res p price req nowInt := by
  obtain ⟨hrej, hqty, price', p', hprice', hfind', hstocks, hact, hstart, hport, hcases⟩ :=
    trade_ok h
  rw [hp, Option.some.injEq] at hfind'
  rw [hprice, Option.some.injEq] at hprice'
  subst hfind'
  subst hprice'
  refine ⟨?_, ?_, ?_, ?_, hstocks⟩
  · intro hpos
    rcases hcases with ⟨_, hc, hcash, hh⟩ | ⟨hneg, _, _, _⟩
    · constructor
      · rw [hcash, abs_of_pos hpos]
      · rw [hh, hget_hset]
    · omega
  · intro hneg
    have habs : |req.qty| = -req.qty := abs_of_neg hneg
    rcases hcases with ⟨hpos, _, _, _⟩ | ⟨_, hc, hcash, hh⟩
    · omega
    · refine ⟨by rw [hcash, habs], ?_, ?_⟩
      · rw [hh]
        split_ifs with hz
        · rw [hdel_hset, hget_eq_zero_of_not_mem (not_mem_keys_hdel hnd)]
          rw [habs] at hz
          omega
        · rw [hget_hset, habs]
          ring
      · intro hzero
        have hz : hget p.holdings req.symbol - |req.qty| = 0 := by
          rw [habs]; omega
        rw [hh, if_pos hz, hdel_hset]
        exact not_mem_keys_hdel hnd
  · rw [hport]
    exact find?_updatePortfolios res.cash res.holdings nowInt hp
  · intro q hq hne
    rw [hport]
    exact updatePortfolios_other q hq hne

/-- Witness for C1: from the base state, Alpha buys 10 INFY at price 1500. -/
theorem C1_witness :
    TradeEffect exBase exBaseAfter ⟨85000, [("INFY", 10)]⟩ ⟨"Alpha", 100000, [], 0⟩
      1500 ⟨"Alpha", "INFY", 10⟩ 0 := by
  have hp : exBase.portfolios.find? (fun q => q.team == "Alpha") =
      some ⟨"Alpha", 100000, [], 0⟩ := by simp [exBase]
  have hprice : priceOf exBase.stocks "INFY" = some 1500 := by simp [priceOf, exBase]
  have hrej : tradingRejected exBase 0 = false := by
    simp only [tradingRejected, exBase]
    norm_num [ROUND_DURATION]
  refine C1_trade_effect exBase 0 0 ⟨"Alpha", "INFY", 10⟩ exBaseAfter
    ⟨85000, [("INFY", 10)]⟩ ⟨"Alpha", 100000, [], 0⟩ 1500 hp (by simp) hprice ?_
  unfold trade
  simp only [hrej, hprice, hp]
  norm_num [exBase, exBaseAfter, updatePortfolios, hget, hset]

/-! ### Claim C4: precondition order and error codes -/

/-- C4: `trade` checks its preconditions in order — round gate, zero quantity,
unknown symbol, unknown team, insufficient cash (buys), insufficient holdings
(sells) — returning the corresponding typed error with HTTP statuses
403, 400, 404, 404, 400, 400 respectively. -/
theorem C4_precondition_order (st : MarketState) (now : ℚ) (nowInt : ℤ)
    (req : TradeReq) :
    (tradingRejected st now = true →
      (trade st now nowInt req).2 = Except.error TradeError.round_closed) ∧
    (tradingRejected st now = false → req.qty = 0 →
      (trade st now nowInt req).2 = Except.error TradeError.zero_quantity) ∧
    (tradingRejected st now = false → req.qty ≠ 0 →
      priceOf st.stocks req.symbol = none →
      (trade st now nowInt req).2 = Except.error TradeError.unknown_symbol) ∧
    (∀ price, tradingRejected st now = false → req.qty ≠ 0 →
      priceOf st.stocks req.symbol = some price →
      st.portfolios.find? (fun q => q.team == req.team) = none →
      (trade st now nowInt req).2 = Except.error TradeError.unknown_team) ∧
    (∀ price p, tradingRejected st now = false → 0 < req.qty →
      priceOf st.stocks req.symbol = some price →
      st.portfolios.find? (fun q => q.team == req.team) = some p →
      p.cash < price * ((|req.qty| : ℤ) : ℚ) →
      (trade st now nowInt req).2 = Except.error TradeError.insufficient_cash) ∧
    (∀ price p, tradingRejected st now = false → req.qty < 0 →
      priceOf st.stocks req.symbol = some price →
      st.portfolios.find? (fun q => q.team == req.team) = some p →
      hget p.holdings req.symbol < |req.qty| →
      (trade st now nowInt req).2 = Except.error TradeError.insufficient_holdings) ∧
    TradeError.status TradeError.round_closed = 403 ∧
    TradeError.status TradeError.zero_quantity = 400 ∧
    TradeError.status TradeError.unknown_symbol = 404 ∧
    TradeError.status TradeError.unknown_team = 404 ∧
    TradeError.status TradeError.insufficient_cash = 400 ∧
    TradeError.status TradeError.insufficient_holdings = 400 := by
  refine ⟨?_, ?_, ?_, ?_, ?_, ?_, rfl, rfl, rfl, rfl, rfl, rfl⟩
  · intro hrej
    unfold trade
    simp [hrej]
  · intro hrej hq
    unfold trade
    simp [hrej, hq]
  · intro hrej hq hsym
    unfold trade
    simp [hrej, hq, hsym]
  · intro price hrej hq hsym hteam
    unfold trade
    simp [hrej, hq, hsym, hteam]
  · intro price p hrej hpos hsym hteam hcash
    have hcash' : p.cash < price * |(req.qty : ℚ)| := by
      rwa [Int.cast_abs] at hcash
    unfold trade
    simp [hrej, hpos.ne', hsym, hteam, hpos, hcash']
  · intro price p hrej hneg hsym hteam hhold
    unfold trade
    simp [hrej, hneg.ne, hsym, hteam, not_lt.mpr (le_of_lt hneg), hhold]

/-- Witness for C4: each of the six error paths hit at a concrete input. -/
theorem C4_witness :
    (trade exClosed 0 0 ⟨"Alpha", "INFY", 1⟩).2 = Except.error TradeError.round_closed ∧
    (trade exBase 0 0 ⟨"Alpha", "INFY", 0⟩).2 = Except.error TradeError.zero_quantity ∧
    (trade exBase 0 0 ⟨"Alpha", "ZZZZ", 1⟩).2 = Except.error TradeError.unknown_symbol ∧
    (trade exBase 0 0 ⟨"Bob", "INFY", 1⟩).2 = Except.error TradeError.unknown_team ∧
    (trade exBase 0 0 ⟨"Alpha", "INFY", 100⟩).2 = Except.error TradeError.insufficient_cash ∧
    (trade exBase 0 0 ⟨"Alpha", "INFY", -1⟩).2 = Except.error TradeError.insufficient_holdings := by
  have hrej : tradingRejected exBase 0 = false := by
    simp only [tradingRejected, exBase]
    norm_num [ROUND_DURATION]
  have hprice : priceOf exBase.stocks "INFY" = some 1500 := by simp [priceOf, exBase]
  have hp : exBase.portfolios.find? (fun q => q.team == "Alpha") =
      some ⟨"Alpha", 100000, [], 0⟩ := by simp [exBase]
  refine ⟨(C4_precondition_order exClosed 0 0 _).1 (by simp [tradingRejected, exClosed]),
    (C4_precondition_order exBase 0 0 _).2.1 hrej rfl,
    (C4_precondition_order exBase 0 0 _).2.2.1 hrej (by norm_num)
      (by simp [priceOf, exBase]),
    (C4_precondition_order exBase 0 0 _).2.2.2.1 1500 hrej (by norm_num) hprice
      (by simp [exBase]),
    (C4_precondition_order exBase 0 0 _).2.2.2.2.1 1500 ⟨"Alpha", 100000, [], 0⟩ hrej
      (by norm_num) hprice hp (by norm_num),
    (C4_precondition_order exBase 0 0 _).2.2.2.2.2.1 1500 ⟨"Alpha", 100000, [], 0⟩ hrej
      (by norm_num) hprice hp (by norm_num [hget])⟩

/-! ### Claim C6: which updater is suspended outside a running round -/

/-- C6 counterexample: with the round inactive, one step of the slow jitter
loop (`price_update_loop`) still writes a price change, using a draw inside
its ±2 % range. -/
theorem C6_counterexample :
    exClosed.round_active = false ∧
    |(1 : ℚ)/100| ≤ 1/50 ∧
    (slowTick exClosed (fun _ => true) (fun _ => 1/100) 1).stocks ≠ exClosed.stocks := by
  refine ⟨rfl, ?_, ?_⟩
  · rw [abs_of_pos (by norm_num : (0:ℚ) < 1/100)]
    norm_num
  · norm_num [slowTick, exClosed, tickStock, priceStep, round2, roundHalfEven]

/-- C6 amended: only the live updater is suspended — when the round is not
active it writes nothing, and when the deadline has passed it only clears the
round flag — while the slow jitter updater writes regardless of round state. -/
theorem C6_amended (st : MarketState) (now : ℚ) (n : ℤ) (δ : String → ℚ) :
    (st.round_active = false → liveTick st now n δ = st) ∧
    (∀ t0, st.round_active = true → st.round_start = some t0 →
      ROUND_DURATION < now - t0 →
      liveTick st now n δ = { st with round_active := false }) := by
  constructor
  · intro h
    unfold liveTick
    rw [h]
    simp
  · intro t0 ha hs hlt
    unfold liveTick
    rw [ha, hs]
    simp [hlt]

/-- Witness for C6 at a concrete suspended state. -/
theorem C6_witness : liveTick exClosed 0 0 (fun _ => 0) = exClosed :=
  (C6_amended exClosed 0 0 (fun _ => 0)).1 rfl

/-! ### Leaderboard lemmas: exact values and stability of the sort -/

lemma priceOrZero_div100 {stocks : List Stock}
    (h : ∀ s ∈ stocks, ∃ k : ℤ, s.price = (k : ℚ)/100) (sym : String) :
    ∃ k : ℤ, priceOrZero stocks sym = (k : ℚ)/100 := by
  unfold priceOrZero
  rcases hp : priceOf stocks sym with _ | price
  · exact ⟨0, by norm_num⟩
  · rcases priceOf_mem hp with ⟨s0, hs0, rfl⟩
    exact h s0 hs0

/-- On 2-decimal cash and prices the per-team value is exact: the code's
`round(…, 2)` is the identity there. -/
lemma boardEntry_value_exact {st : MarketState} {p : Portfolio}
    (hc : ∃ k : ℤ, p.cash = (k : ℚ)/100)
    (hprices : ∀ s ∈ st.stocks, ∃ k : ℤ, s.price = (k : ℚ)/100) :
    (boardEntry st.stocks p).value =
      p.cash + (p.holdings.map (fun kv => priceOrZero st.stocks kv.1 * (kv.2 : ℚ))).sum := by
  obtain ⟨kc, hkc⟩ := hc
  obtain ⟨ks, hks⟩ :=
    sum_div100 (l := p.holdings.map (fun kv => priceOrZero st.stocks kv.1 * (kv.2 : ℚ)))
      (by intro x hx
          rcases List.mem_map.mp hx with ⟨kv, _, rfl⟩
          obtain ⟨k, hk⟩ := priceOrZero_div100 hprices kv.1
          refine ⟨k * kv.2, ?_⟩
          rw [hk]
          push_cast
          ring)
  have hsum : p.cash +
      (p.holdings.map (fun kv => priceOrZero st.stocks kv.1 * (kv.2 : ℚ))).sum =
      ((kc + ks : ℤ) : ℚ)/100 := by
    rw [hkc, hks]
    push_cast
    ring
  show round2 _ = _
  rw [hsum, round2_eq_self]

/-- Inserting `a` into a descending-sorted list places it before every entry
of equal value, so filtering at any value commutes with the insertion. -/
lemma filter_orderedInsert (v : ℚ) (a : BoardEntry) :
    ∀ L : List BoardEntry, L.Sorted (fun x y => y.value ≤ x.value) →
      ((L.orderedInsert (fun x y => y.value ≤ x.value) a).filter
          (fun e => decide (e.value = v))) =
        (if a.value = v then
          a :: L.filter (fun e => decide (e.value = v))
        else L.filter (fun e => decide (e.value = v)))
  | [], _ => by
    rcases eq_or_ne a.value v with h | h <;>
      simp [List.orderedInsert, List.filter, h]
  | b :: t, hS => by
    rw [List.orderedInsert]
    by_cases hr : b.value ≤ a.value
    · rw [if_pos hr]
      rcases eq_or_ne a.value v with hv | hv <;> simp [List.filter_cons, hv]
    · rw [if_neg hr]
      have hab : a.value < b.value := lt_of_not_le hr
      have ih := filter_orderedInsert v a t (List.sorted_cons.mp hS).2
      rcases eq_or_ne a.value v with hv | hv
      · have hbv : ¬ b.value = v := by
          rw [← hv]
          exact fun hh => absurd hh.symm (ne_of_lt hab)
        simp [List.filter_cons, hbv, ih, hv]
      · simp [List.filter_cons, ih, hv]

/-- The stable insertion sort keeps, for every value, the entries carrying
that value in their original order. -/
lemma filter_insertionSort (v : ℚ) (l : List BoardEntry) :
    ((List.insertionSort (fun x y => y.value ≤ x.value) l).filter
        (fun e => decide (e.value = v))) =
      l.filter (fun e => decide (e.value = v)) := by
  induction l with
  | nil => rfl
  | cons a t ih =>
    haveI : IsTotal BoardEntry (fun x y => y.value ≤ x.value) :=
      ⟨fun x y => le_total y.value x.value⟩
    haveI : IsTrans BoardEntry (fun x y => y.value ≤ x.value) :=
      ⟨fun x y z h1 h2 => le_trans h2 h1⟩
    rw [List.insertionSort,
      filter_orderedInsert v a _ (List.sorted_insertionSort _ t), ih]
    rcases eq_or_ne a.value v with hv | hv <;> simp [List.filter_cons, hv]

/-! ### Claim C7: leaderboard contents and ordering -/

/-- C7 counterexample: two teams with equal value stored in the order B, A
come back in that same order — ties are not re-ordered by ascending team
name ("A" sorts before "B" in string order). -/
theorem C7_counterexample :
    leaderboard exTie = [⟨"B", 100000⟩, ⟨"A", 100000⟩] ∧ "A".data < "B".data := by
  constructor
  · norm_num [leaderboard, exTie, boardEntry, priceOrZero, round2, roundHalfEven,
      List.insertionSort, List.orderedInsert]
  · decide

/-- C7 amended: with the 2-decimal cash and price values the system
maintains, the leaderboard returns one entry per portfolio with value exactly
`cash + Σ qty·current_price`, sorted by value descending, and — the tie rule
the counterexample forces to change — for every value the entries carrying it
appear in the stored portfolio order (the sort is stable), not re-ordered by
ascending team name. -/
theorem C7_amended (st : MarketState)
    (hcash : ∀ p ∈ st.portfolios, ∃ k : ℤ, p.cash = (k : ℚ)/100)
    (hprices : ∀ s ∈ st.stocks, ∃ k : ℤ, s.price = (k : ℚ)/100) :
    LeaderboardSpec st := by
  refine ⟨List.perm_insertionSort _ _, ?_, ?_, ?_⟩
  · intro p hp
    exact boardEntry_value_exact (hcash p hp) hprices
  · haveI : IsTotal BoardEntry (fun a b => b.value ≤ a.value) :=
      ⟨fun a b => le_total b.value a.value⟩
    haveI : IsTrans BoardEntry (fun a b => b.value ≤ a.value) :=
      ⟨fun a b c h1 h2 => le_trans h2 h1⟩
    exact List.sorted_insertionSort _ _
  · intro v
    exact filter_insertionSort v _

/-- Witness for C7: three teams all worth exactly 100000, with holdings. -/
theorem C7_witness : LeaderboardSpec exBoard := by
  refine C7_amended exBoard ?_ ?_
  · intro p hp
    simp only [exBoard, List.mem_cons, List.not_mem_nil, or_false] at hp
    rcases hp with rfl | rfl | rfl
    · exact ⟨4000000, by norm_num⟩
    · exact ⟨10000000, by norm_num⟩
    · exact ⟨7000000, by norm_num⟩
  · intro s hs
    simp only [exBoard, List.mem_cons, List.not_mem_nil, or_false] at hs
    rcases hs with rfl
    exact ⟨150000, by norm_num⟩

/-! ### Claim C8: the trading-open boundary -/

/-- C8 counterexample: at `now` exactly equal to the deadline
(start + 1800 s) a trade still succeeds — the code uses a strict `>` to
close the round, so `now ≥ deadline` is not rejected. -/
theorem C8_counterexample :
    ¬ ((1800 : ℚ) < 0 + ROUND_DURATION) ∧
    (trade exBase 1800 1800 ⟨"Alpha", "INFY", 10⟩).2 =
      Except.ok ⟨85000, [("INFY", 10)]⟩ := by
  constructor
  · norm_num [ROUND_DURATION]
  · have hrej : tradingRejected exBase 1800 = false := by
      simp only [tradingRejected, exBase]
      norm_num [ROUND_DURATION]
    have hprice : priceOf exBase.stocks "INFY" = some 1500 := by simp [priceOf, exBase]
    have hp : exBase.portfolios.find? (fun q => q.team == "Alpha") =
        some ⟨"Alpha", 100000, [], 0⟩ := by simp [exBase]
    unfold trade
    simp only [hrej, hprice, hp]
    norm_num [exBase, updatePortfolios, hget, hset]

/-- C8 amended: a trade passes the round gate iff the round flag is set and,
when a start time is recorded, `now − start ≤ 1800` (the boundary instant is
still open); `round_closed` (403) is returned exactly when the gate fails. -/
theorem C8_amended (st : MarketState) (now : ℚ) (nowInt : ℤ) (req : TradeReq) :
    (tradingRejected st now = false ↔
      st.round_active = true ∧
        ∀ t0, st.round_start = some t0 → now - t0 ≤ ROUND_DURATION) ∧
    ((trade st now nowInt req).2 = Except.error TradeError.round_closed ↔
      tradingRejected st now = true) := by
  constructor
  · unfold tradingRejected
    rcases hs : st.round_start with _ | t0
    · cases st.round_active <;> simp
    · cases st.round_active <;> simp [not_lt]
  · unfold trade
    split
    next hrej => simp [hrej]
    next hrej =>
      rw [Bool.not_eq_true] at hrej
      rw [hrej]
      simp only [Bool.false_eq_true, iff_false]
      split
      · simp
      split
      · simp
      split
      · simp
      split
      · split
        · simp
        · simp
      · split
        · simp
        · simp

/-! ### Claim C9: team registration -/

/-- C9 counterexample: registering an existing team fails with HTTP 400, not
409, and registering with an empty team name succeeds instead of failing. -/
theorem C9_counterexample :
    (init_team exBase "Alpha" 5).2 = Except.error 400 ∧ (400 : ℕ) ≠ 409 ∧
    (init_team exBase "" 5).2 = Except.ok 100000 := by
  refine ⟨?_, by norm_num, ?_⟩
  · simp [init_team, exBase]
  · simp [init_team, exBase, INITIAL_CASH]

/-- C9 amended: duplicate registration fails with HTTP 400 and leaves the
state unchanged; any unused name — including the empty string — is accepted,
appending a portfolio with the initial cash 100000 and empty holdings and
returning that cash. -/
theorem C9_amended (st : MarketState) (team : String) (n : ℤ) :
    ((∃ p ∈ st.portfolios, p.team = team) →
      (init_team st team n).2 = Except.error 400 ∧ (init_team st team n).1 = st) ∧
    ((∀ p ∈ st.portfolios, p.team ≠ team) →
      (init_team st team n).2 = Except.ok INITIAL_CASH ∧
      (init_team st team n).1.portfolios =
        st.portfolios ++ [⟨team, INITIAL_CASH, [], n⟩] ∧
      INITIAL_CASH = 100000) := by
  have hany : (st.portfolios.any (fun p => p.team == team) = true) ↔
      ∃ p ∈ st.portfolios, p.team = team := by
    simp [List.any_eq_true]
  constructor
  · intro hex
    unfold init_team
    rw [if_pos (hany.mpr hex)]
    exact ⟨rfl, rfl⟩
  · intro hall
    have hno : ¬ (st.portfolios.any (fun p => p.team == team) = true) := by
      rw [hany]
      push_neg
      exact hall
    unfold init_team
    rw [if_neg hno]
    exact ⟨rfl, rfl, rfl⟩

/-- Witness for C9: duplicate and fresh registration against the base state. -/
theorem C9_witness :
    ((init_team exBase "Alpha" 5).2 = Except.error 400 ∧
      (init_team exBase "Alpha" 5).1 = exBase) ∧
    ((init_team exBase "Bob" 5).2 = Except.ok INITIAL_CASH ∧
      (init_team exBase "Bob" 5).1.portfolios =
        exBase.portfolios ++ [⟨"Bob", INITIAL_CASH, [], 5⟩] ∧
      INITIAL_CASH = 100000) :=
  ⟨(C9_amended exBase "Alpha" 5).1 ⟨⟨"Alpha", 100000, [], 0⟩, by simp [exBase], rfl⟩,
   (C9_amended exBase "Bob" 5).2 (by simp [exBase])⟩

end GameOfTrades
